import Mathlib

/-!
Shallow embedding of the 13F quarter-over-quarter diff engine
(`src/thirteen_f/analysis/diff.py`) and the multi-quarter thesis-signal
detector (`src/thirteen_f/analysis/signals.py`, with the keyword table of
`src/thirteen_f/analysis/clustering.py`).

Modelling conventions:
* Python `int` is modelled as `Int`; Python floats produced by true division
  are modelled as `ℚ` (the properties under study concern exact discrete
  arithmetic, not floating-point rounding).
* `None`-able fields are `Option`; Python truthiness of numbers
  (`if prev_value`) is modelled explicitly (`pyTruthy`).
* Python dicts are modelled as insertion-ordered association lists; a dict
  comprehension keeps the last binding for a repeated key (`dictOf`),
  `d.setdefault`-style accumulation appends at the end (`dictAppend`).
* Database access in `compute_quarter_diff` is replaced by passing the two
  holdings lists directly; this mirrors `db.get_holdings_for_filing`
  returning those lists.
-/

set_option allowUnsafeReducibility true in
attribute [semireducible] Rat.mul Rat.add Rat.sub Rat.inv Rat.div

namespace ThirteenF

/-- One stored holding, the fields read by the analysis layer
(`HoldingRecord` in `storage/models.py`; columns not read by
`diff.py`/`signals.py` — id, filing_id, figi, value_thousands, shares_type,
investment_discretion, voting counts — are omitted). -/
structure HoldingRecord where
  issuer_name : String
  title_of_class : String
  cusip : String
  value_usd : Int
  shares_or_principal : Int
  put_call : Option String
deriving DecidableEq, Repr

/-- The starter-policy slice of `Config` (`config.py`). -/
structure Config where
  starter_weight_min : ℚ
  starter_weight_max : ℚ
  starter_value_threshold : Int
deriving DecidableEq, Repr

/-- `PositionDiff` dataclass of `diff.py`. -/
structure PositionDiff where
  cusip : String
  issuer_name : String
  title_of_class : String
  prev_value_usd : Option Int
  now_value_usd : Option Int
  delta_value_usd : Int
  prev_shares : Option Int
  now_shares : Option Int
  delta_shares : Int
  prev_weight : Option ℚ
  now_weight : Option ℚ
  growth_rate : Option ℚ
  portfolio_impact : Option ℚ
  change_type : String
  is_starter : Bool
  put_call : Option String := none
deriving DecidableEq, Repr

/-- `QuarterDiff` dataclass of `diff.py`. -/
structure QuarterDiff where
  fund_id : Int
  fund_name : String
  period_from : String
  period_to : String
  total_portfolio_prev : Int
  total_portfolio_now : Int
  new_positions : List PositionDiff := []
  sold_out : List PositionDiff := []
  increased : List PositionDiff := []
  decreased : List PositionDiff := []
  unchanged : List PositionDiff := []
  top_adds_by_value : List PositionDiff := []
  top_cuts_by_value : List PositionDiff := []
  top_adds_by_growth_rate : List PositionDiff := []
  top_cuts_by_growth_rate : List PositionDiff := []
  top_adds_by_portfolio_impact : List PositionDiff := []
  top_cuts_by_portfolio_impact : List PositionDiff := []
  new_starters : List PositionDiff := []
  increased_starters : List PositionDiff := []
  concentration_top5 : ℚ := 0
  concentration_top10 : ℚ := 0
  herfindahl_index : ℚ := 0
  position_count_prev : Nat := 0
  position_count_now : Nat := 0
  gross_adds_value : Int := 0
  gross_cuts_value : Int := 0
deriving DecidableEq, Repr

/-- Python truthiness of an optional integer (`if prev_value`):
false for `None` and for `0`. -/
def pyTruthy : Option Int → Bool
  | none => false
  | some z => z != 0

/-- Python `x or 0` on an optional integer. -/
def pyOr0 : Option Int → Int
  | none => 0
  | some z => z

/-- `_holding_key` of `diff.py`: `f"{cusip}|{title_of_class}|{put_call or NONE}"`.
Python `or` reads an empty string as falsy, like `None`. -/
def holdingKey (h : HoldingRecord) : String :=
  let put_call := match h.put_call with
    | none => "NONE"
    | some s => if s = "" then "NONE" else s
  h.cusip ++ "|" ++ h.title_of_class ++ "|" ++ put_call

/-- Value-side test of `_is_starter`: `value is not None and value < threshold`. -/
def valueIsStarter (value : Option Int) (config : Config) : Bool :=
  match value with
  | some v => decide (v < config.starter_value_threshold)
  | none => false

/-- Weight-side test of `_is_starter`:
`weight is not None and min ≤ weight ≤ max`. -/
def weightIsStarter (weight : Option ℚ) (config : Config) : Bool :=
  match weight with
  | some w => decide (config.starter_weight_min ≤ w ∧ w ≤ config.starter_weight_max)
  | none => false

/-- `_is_starter` of `diff.py`: the value test fires first, then the
weight test; either suffices. -/
def isStarter (weight : Option ℚ) (value : Option Int) (config : Config) : Bool :=
  valueIsStarter value config || weightIsStarter weight config

/-- `sum(h.value_usd for h in holdings)`. -/
def totalValue (hs : List HoldingRecord) : Int :=
  (hs.map (fun h => h.value_usd)).sum

/-- The dict comprehension `{_holding_key(h): h for h in holdings}` read at
key `k`: the last holding whose key equals `k`, if any. -/
def dictOf (hs : List HoldingRecord) (k : String) : Option HoldingRecord :=
  hs.foldl (fun acc h => if holdingKey h = k then some h else acc) none

/-- First-occurrence deduplication (worker carrying the keys already
seen). -/
def dedupFirstAux (seen : List String) : List String → List String
  | [] => []
  | k :: rest =>
      if k ∈ seen then dedupFirstAux seen rest
      else k :: dedupFirstAux (k :: seen) rest

/-- First-occurrence deduplication; fixes one deterministic iteration order
for the key set union `set(prev) | set(now)` (Python leaves set iteration
order unspecified; every property proved below is insensitive to it). -/
def dedupFirst (l : List String) : List String :=
  dedupFirstAux [] l

/-- `all_keys = set(prev_by_key) | set(now_by_key)`, in first-appearance
order. -/
def unionKeys (prev now : List HoldingRecord) : List String :=
  dedupFirst (prev.map holdingKey ++ now.map holdingKey)

/-- The loop body of `compute_quarter_diff` for one key, given the matched
holdings `h_prev`/`h_now` and the display-field fallback `ref`. -/
def mkPositionDiffRef (h_prev h_now : Option HoldingRecord) (ref : HoldingRecord)
    (total_prev total_now : Int) (config : Config) : PositionDiff :=
  let prev_value : Option Int := h_prev.map (fun h => h.value_usd)
  let now_value : Option Int := h_now.map (fun h => h.value_usd)
  let prev_shares : Option Int := h_prev.map (fun h => h.shares_or_principal)
  let now_shares : Option Int := h_now.map (fun h => h.shares_or_principal)
  let delta_value : Int := pyOr0 now_value - pyOr0 prev_value
  let delta_shares : Int := pyOr0 now_shares - pyOr0 prev_shares
  let prev_weight : Option ℚ :=
    if pyTruthy prev_value = true ∧ total_prev ≠ 0 then
      some ((pyOr0 prev_value : ℚ) / (total_prev : ℚ))
    else none
  let now_weight : Option ℚ :=
    if pyTruthy now_value = true ∧ total_now ≠ 0 then
      some ((pyOr0 now_value : ℚ) / (total_now : ℚ))
    else none
  let growth_rate : Option ℚ :=
    if pyTruthy prev_value = true ∧ 0 < pyOr0 prev_value ∧ now_value.isSome = true then
      some (((pyOr0 now_value - pyOr0 prev_value : Int) : ℚ) / (pyOr0 prev_value : ℚ))
    else none
  let portfolio_impact : Option ℚ :=
    if 0 < total_prev then some ((delta_value : ℚ) / (total_prev : ℚ)) else none
  let change_type : String :=
    if h_prev = none ∧ h_now ≠ none then "NEW"
    else if h_prev ≠ none ∧ h_now = none then "EXIT"
    else if 0 < delta_value then "INCREASE"
    else if delta_value < 0 then "DECREASE"
    else "UNCHANGED"
  { cusip := ref.cusip
    issuer_name := ref.issuer_name
    title_of_class := ref.title_of_class
    prev_value_usd := prev_value
    now_value_usd := now_value
    delta_value_usd := delta_value
    prev_shares := prev_shares
    now_shares := now_shares
    delta_shares := delta_shares
    prev_weight := prev_weight
    now_weight := now_weight
    growth_rate := growth_rate
    portfolio_impact := portfolio_impact
    change_type := change_type
    is_starter := isStarter now_weight now_value config
    put_call := ref.put_call }

/-- One loop iteration of `compute_quarter_diff`: the reference record is
`h_now or h_prev`; a key matched on neither side never occurs in the loop
(in the embedding it yields `none`, and `positionDiffsOf` shows every union
key does produce a diff). -/
def mkPositionDiff (h_prev h_now : Option HoldingRecord)
    (total_prev total_now : Int) (config : Config) : Option PositionDiff :=
  match h_now, h_prev with
  | none, none => none
  | some hn, _ => some (mkPositionDiffRef h_prev h_now hn total_prev total_now config)
  | none, some hp => some (mkPositionDiffRef h_prev h_now hp total_prev total_now config)

/-- The `diffs` list of `compute_quarter_diff`: one `PositionDiff` per key
in the union of the two sides. -/
def positionDiffsOf (prev now : List HoldingRecord) (config : Config) : List PositionDiff :=
  (unionKeys prev now).filterMap (fun k =>
    mkPositionDiff (dictOf prev k) (dictOf now k) (totalValue prev) (totalValue now) config)

/-- Stable insertion of `x` into `l`: `x` goes in front of the first
element `y` with `le x y`. -/
def insertSortedBy (le : α → α → Bool) (x : α) : List α → List α
  | [] => [x]
  | y :: ys => if le x y then x :: y :: ys else y :: insertSortedBy le x ys

/-- Stable insertion sort, the model of Python `sorted` (only the
multiset of the result and its key-ordering matter to any claim; the spec
leaves the order among exact ties unspecified). -/
def sortListBy (le : α → α → Bool) : List α → List α
  | [] => []
  | x :: xs => insertSortedBy le x (sortListBy le xs)

/-- The comprehension
`[(h.value_usd / total_now) for h in holdings_now if total_now > 0]`,
sorted descending. -/
def weightsNow (holdings_now : List HoldingRecord) : List ℚ :=
  let total_now := totalValue holdings_now
  sortListBy (fun a b => decide (b ≤ a))
    (if 0 < total_now then
        holdings_now.map (fun h => ((h.value_usd : ℚ) / (total_now : ℚ)))
      else [])

/-- `sum(ws[:n]) if len(ws) >= n else sum(ws)`. -/
def concTopN (n : Nat) (ws : List ℚ) : ℚ :=
  if n ≤ ws.length then (ws.take n).sum else ws.sum

/-- The `increased_starters` retention test of `compute_quarter_diff`:
`growth_rate is not None and growth_rate >= 1.0` or
`portfolio_impact is not None and portfolio_impact >= 0.0005`. -/
def scalesUp (d : PositionDiff) : Bool :=
  d.growth_rate.any (fun g => decide ((1 : ℚ) ≤ g)) ||
    d.portfolio_impact.any (fun i => decide ((5 / 10000 : ℚ) ≤ i))

/-- Descending stable sort by delta value, the `reverse=True` ranking of
`compute_quarter_diff`. -/
def sortByDeltaDesc (l : List PositionDiff) : List PositionDiff :=
  sortListBy (fun a b => decide (b.delta_value_usd ≤ a.delta_value_usd)) l

/-- Ascending stable sort by delta value. -/
def sortByDeltaAsc (l : List PositionDiff) : List PositionDiff :=
  sortListBy (fun a b => decide (a.delta_value_usd ≤ b.delta_value_usd)) l

/-- Descending stable sort by `growth_rate or 0`. -/
def sortByGrowthDesc (l : List PositionDiff) : List PositionDiff :=
  sortListBy (fun a b => decide (b.growth_rate.getD 0 ≤ a.growth_rate.getD 0)) l

/-- Ascending stable sort by `growth_rate or 0`. -/
def sortByGrowthAsc (l : List PositionDiff) : List PositionDiff :=
  sortListBy (fun a b => decide (a.growth_rate.getD 0 ≤ b.growth_rate.getD 0)) l

/-- Descending stable sort by `portfolio_impact or 0`. -/
def sortByImpactDesc (l : List PositionDiff) : List PositionDiff :=
  sortListBy (fun a b => decide (b.portfolio_impact.getD 0 ≤ a.portfolio_impact.getD 0)) l

/-- Ascending stable sort by `portfolio_impact or 0`. -/
def sortByImpactAsc (l : List PositionDiff) : List PositionDiff :=
  sortListBy (fun a b => decide (a.portfolio_impact.getD 0 ≤ b.portfolio_impact.getD 0)) l

set_option maxHeartbeats 1000000 in
/-- `compute_quarter_diff` of `diff.py` with the two holdings lists passed
directly (replacing the two `db.get_holdings_for_filing` reads) and the
filing metadata reduced to the two period strings. -/
def computeQuarterDiff (fund_id : Int) (fund_name period_from period_to : String)
    (holdings_prev holdings_now : List HoldingRecord) (config : Config) : QuarterDiff :=
  let total_prev := totalValue holdings_prev
  let total_now := totalValue holdings_now
  let diffs := positionDiffsOf holdings_prev holdings_now config
  let new_positions := diffs.filter (fun d => decide (d.change_type = "NEW"))
  let sold_out := diffs.filter (fun d => decide (d.change_type = "EXIT"))
  let increased := diffs.filter (fun d => decide (d.change_type = "INCREASE"))
  let decreased := diffs.filter (fun d => decide (d.change_type = "DECREASE"))
  let unchanged := diffs.filter (fun d => decide (d.change_type = "UNCHANGED"))
  let adds := diffs.filter (fun d => decide (0 < d.delta_value_usd))
  let cuts := diffs.filter (fun d => decide (d.delta_value_usd < 0))
  let adds_with_growth :=
    adds.filter (fun d => d.growth_rate.isSome && decide (d.change_type ≠ "NEW"))
  let cuts_with_growth := cuts.filter (fun d => d.growth_rate.isSome)
  let adds_with_impact := adds.filter (fun d => d.portfolio_impact.isSome)
  let cuts_with_impact := cuts.filter (fun d => d.portfolio_impact.isSome)
  let weights_now := weightsNow holdings_now
  { fund_id := fund_id
    fund_name := fund_name
    period_from := period_from
    period_to := period_to
    total_portfolio_prev := total_prev
    total_portfolio_now := total_now
    new_positions := new_positions
    sold_out := sold_out
    increased := increased
    decreased := decreased
    unchanged := unchanged
    top_adds_by_value := (sortByDeltaDesc adds).take 10
    top_cuts_by_value := (sortByDeltaAsc cuts).take 10
    top_adds_by_growth_rate := (sortByGrowthDesc adds_with_growth).take 10
    top_cuts_by_growth_rate := (sortByGrowthAsc cuts_with_growth).take 10
    top_adds_by_portfolio_impact := (sortByImpactDesc adds_with_impact).take 10
    top_cuts_by_portfolio_impact := (sortByImpactAsc cuts_with_impact).take 10
    new_starters := new_positions.filter (fun d => d.is_starter)
    increased_starters := increased.filter (fun d => d.is_starter && scalesUp d)
    concentration_top5 := concTopN 5 weights_now
    concentration_top10 := concTopN 10 weights_now
    herfindahl_index := if weights_now ≠ [] then (weights_now.map (fun w => w * w)).sum else 0
    position_count_prev := holdings_prev.length
    position_count_now := holdings_now.length
    gross_adds_value := (adds.map (fun d => d.delta_value_usd)).sum
    gross_cuts_value := (cuts.map (fun d => |d.delta_value_usd|)).sum }

/-! ### `signals.py` -/

/-- A value stored in a `Signal.details` dict (Python mixes ints, floats
and strings there). -/
inductive DetailVal where
  | int (z : Int)
  | rat (q : ℚ)
  | str (s : String)
deriving DecidableEq, Repr

/-- The `Signal` dataclass of `signals.py`.  The free-text `description`
field (an f-string rendering of the other fields, including `%`-formatted
floats) is display-only and not modelled. -/
structure Signal where
  signal_type : String
  holdings : List String
  quarters : List String
  strength : String
  details : List (String × DetailVal) := []
deriving DecidableEq, Repr

/-- One `(period, value, weight, change_type)` history entry of
`position_history` in `detect_signals`. -/
structure HistEntry where
  period : String
  value : Option Int
  weight : Option ℚ
  change : String
deriving DecidableEq, Repr

/-- The entry appended to `position_history[pos.cusip]` for a position seen
in the diff whose `period_to` is `period`. -/
def mkEntry (period : String) (p : PositionDiff) : HistEntry :=
  { period := period
    value := p.now_value_usd
    weight := p.now_weight
    change := p.change_type }

/-- `all_positions` in `detect_signals`:
`new_positions + increased + decreased + unchanged + sold_out`. -/
def allPositions (d : QuarterDiff) : List PositionDiff :=
  d.new_positions ++ d.increased ++ d.decreased ++ d.unchanged ++ d.sold_out

/-- Append `e` under key `k` in an insertion-ordered dict of lists:
Python's `if k not in d: d[k] = []` followed by `d[k].append(e)`. -/
def dictAppend {α : Type} : List (String × List α) → String → α → List (String × List α)
  | [], k, e => [(k, [e])]
  | (k', v) :: rest, k, e =>
      if k' = k then (k', v ++ [e]) :: rest else (k', v) :: dictAppend rest k e

/-- Fold a list of `(key, entry)` pairs into a dict of lists with
`dictAppend`. -/
def dictAppendAll {α : Type} (d : List (String × List α)) (ps : List (String × α)) :
    List (String × List α) :=
  ps.foldl (fun acc pr => dictAppend acc pr.1 pr.2) d

/-- The traversal order of `detect_signals`' history-building loop:
diffs oldest→newest (`reversed(diffs)`), and inside one diff the
`all_positions` order, pairing each position's cusip with its entry. -/
def chronEntries (diffs : List QuarterDiff) : List (String × HistEntry) :=
  diffs.reverse.flatMap (fun d =>
    (allPositions d).map (fun p => (p.cusip, mkEntry d.period_to p)))

/-- `position_history` of `detect_signals`: a dict keyed by `pos.cusip`
(only the cusip — not the full `_holding_key`). -/
def buildHistory (diffs : List QuarterDiff) : List (String × List HistEntry) :=
  dictAppendAll [] (chronEntries diffs)

/-- The reconstructed history of one cusip (`position_history[c]`,
empty when the cusip never appears). -/
def histAt (diffs : List QuarterDiff) (c : String) : List HistEntry :=
  ((buildHistory diffs).lookup c).getD []

/-- `cusip_to_name` of `detect_signals` read at `c`, with the
`.get(cusip, cusip)` default: the last write wins, writes coming from
`new_positions + increased + decreased` of each diff in the given
(most-recent-first) order. -/
def nameGet (diffs : List QuarterDiff) (c : String) : String :=
  ((diffs.flatMap (fun d => d.new_positions ++ d.increased ++ d.decreased)).foldl
    (fun acc p => if p.cusip = c then some p.issuer_name else acc) none).getD c

/-- Whether a history entry records an `INCREASE`. -/
def isInc (e : HistEntry) : Bool :=
  e.change == "INCREASE"

/-- Scan state of the consistent-accumulator loop:
`consecutive_increases`, `max_consecutive` (so far), `increase_quarters`. -/
structure AccumSt where
  con : Nat
  mx : Nat
  qs : List String
deriving DecidableEq, Repr

/-- One iteration of the consistent-accumulator loop. -/
def accumStep (s : AccumSt) (e : HistEntry) : AccumSt :=
  if isInc e then { con := s.con + 1, mx := s.mx, qs := s.qs ++ [e.period] }
  else { con := 0, mx := max s.mx s.con, qs := [] }

/-- The state after scanning a whole history (before the post-loop
`max_consecutive = max(max_consecutive, consecutive_increases)`). -/
def accumScan (h : List HistEntry) : AccumSt :=
  h.foldl accumStep { con := 0, mx := 0, qs := [] }

/-- `max_consecutive` as finally used: the post-loop max of the running
maximum and the still-open run. -/
def accumMax (h : List HistEntry) : Nat :=
  max (accumScan h).mx (accumScan h).con

/-- Python `lst[-k:]` (for `k = 0` Python yields the whole list). -/
def pySliceLast {α : Type} (k : Nat) (l : List α) : List α :=
  if k = 0 then l else l.drop (l.length - k)

/-- The consistent-accumulator signal for one cusip's history, if the
longest run of consecutive increases reaches 3. -/
def accumSignalOf (name : String) (h : List HistEntry) : Option Signal :=
  if 3 ≤ accumMax h then
    some { signal_type := "consistent_accumulator"
           holdings := [name]
           quarters := pySliceLast (accumMax h) (accumScan h).qs
           strength := if 4 ≤ accumMax h then "strong" else "moderate"
           details := [("consecutive_increases", DetailVal.int (accumMax h))] }
  else none

/-- Detector 1 of `detect_signals` (consistent accumulator), iterating
`position_history` in insertion order. -/
def accumSignals (diffs : List QuarterDiff) : List Signal :=
  (buildHistory diffs).filterMap (fun ch => accumSignalOf (nameGet diffs ch.1) ch.2)

/-- The build-then-trim scan over one history: carries `build_quarters`
and `in_build_phase`, emits at most one signal (the `break`). -/
def bttScan (name : String) (bq : List String) (inb : Bool) :
    List HistEntry → Option Signal
  | [] => none
  | e :: rest =>
    if e.change = "INCREASE" then bttScan name (bq ++ [e.period]) true rest
    else if e.change = "DECREASE" ∧ inb = true ∧ 2 ≤ bq.length then
      some { signal_type := "build_then_trim"
             holdings := [name]
             quarters := bq ++ [e.period]
             strength := "moderate"
             details := [("build_quarters", DetailVal.int bq.length)] }
    else bttScan name [] false rest

/-- Detector 2 of `detect_signals` (build then trim); histories shorter
than 3 entries are skipped. -/
def bttSignals (diffs : List QuarterDiff) : List Signal :=
  (buildHistory diffs).filterMap (fun ch =>
    if ch.2.length < 3 then none
    else bttScan (nameGet diffs ch.1) [] false ch.2)

/-- The probe signals of one history: for every `NEW` entry look at most
2 entries ahead for an `EXIT`; `quarters_held = j - i + 1`. -/
def probeSignalsFor (name : String) : List HistEntry → List Signal
  | [] => []
  | e :: rest =>
    if e.change = "NEW" then
      match (rest.take 2).enum.find? (fun p => p.2.change == "EXIT") with
      | some p =>
          { signal_type := "one_quarter_probe"
            holdings := [name]
            quarters := [e.period, p.2.period]
            strength := "weak"
            details := [("quarters_held", DetailVal.int (p.1 + 2))] } ::
            probeSignalsFor name rest
      | none => probeSignalsFor name rest
    else probeSignalsFor name rest

/-- Detector 3 of `detect_signals` (one-quarter probe). -/
def probeSignals (diffs : List QuarterDiff) : List Signal :=
  (buildHistory diffs).flatMap (fun ch => probeSignalsFor (nameGet diffs ch.1) ch.2)

/-- Detector 4 of `detect_signals` (concentration shift between the
newest and the oldest diff; requires at least two diffs). -/
def concSignals (diffs : List QuarterDiff) : List Signal :=
  if 2 ≤ diffs.length then
    match diffs.head?, diffs.getLast? with
    | some newest, some oldest =>
      if (5 / 100 : ℚ) ≤ |newest.concentration_top5 - oldest.concentration_top5| then
        [{ signal_type := "concentration_shift"
           holdings := []
           quarters := [oldest.period_to, newest.period_to]
           strength :=
             if |newest.concentration_top5 - oldest.concentration_top5| < (10 / 100 : ℚ)
             then "moderate" else "strong"
           details :=
             [("concentration_change",
               DetailVal.rat |newest.concentration_top5 - oldest.concentration_top5|),
              ("direction", DetailVal.str
                (if oldest.concentration_top5 < newest.concentration_top5 then "increased"
                 else "decreased")),
              ("from", DetailVal.rat oldest.concentration_top5),
              ("to", DetailVal.rat newest.concentration_top5)] }]
      else []
    | _, _ => []
  else []

/-! ### `clustering.py` -/

/-- The `CLUSTERS` keyword table of `clustering.py`, as an ordered
association list (Python dicts iterate in insertion order). -/
def CLUSTERS : List (String × List String) :=
  [("AI/Semiconductors",
    ["NVIDIA", "AMD", "ADVANCED MICRO", "INTEL", "ASML", "TSMC", "TAIWAN SEMI",
     "SEMICONDUCTOR", "BROADCOM", "QUALCOMM", "MARVELL", "MICRON", "APPLIED MATERIAL",
     "LAM RESEARCH", "KLA", "SYNOPSYS", "CADENCE", "ARM HOLDINGS", "LATTICE"]),
   ("Cloud/SaaS",
    ["SALESFORCE", "SERVICENOW", "WORKDAY", "SNOWFLAKE", "DATADOG", "MONGODB",
     "CLOUDFLARE", "ATLASSIAN", "HUBSPOT", "ZSCALER", "CROWDSTRIKE", "OKTA", "SPLUNK",
     "TWILIO", "DOCUSIGN", "ZOOM", "DROPBOX", "BOX INC"]),
   ("Fintech/Payments",
    ["VISA", "MASTERCARD", "PAYPAL", "SQUARE", "BLOCK INC", "STRIPE", "ADYEN", "AFFIRM",
     "SOFI", "ROBINHOOD", "COINBASE", "MARQETA", "TOAST", "BILL.COM", "BILL HOLDINGS"]),
   ("E-commerce/Retail",
    ["AMAZON", "SHOPIFY", "MERCADOLIBRE", "ETSY", "EBAY", "WAYFAIR", "CHEWY", "COUPANG",
     "PINDUODUO", "JD.COM", "ALIBABA", "WALMART", "TARGET", "COSTCO", "HOME DEPOT",
     "LOWE"]),
   ("Social/Advertising",
    ["META", "FACEBOOK", "GOOGLE", "ALPHABET", "SNAP", "PINTEREST", "TWITTER",
     "LINKEDIN", "REDDIT", "TRADE DESK", "PUBMATIC", "DIGITAL TURBINE"]),
   ("Streaming/Media",
    ["NETFLIX", "SPOTIFY", "DISNEY", "WARNER", "PARAMOUNT", "ROKU", "ROBLOX", "UNITY",
     "TAKE-TWO", "ELECTRONIC ARTS", "ACTIVISION", "LIVE NATION", "IMAX"]),
   ("Healthcare/Biotech",
    ["UNITEDHEALTH", "CVS", "HUMANA", "CIGNA", "ANTHEM", "ELEVANCE", "PFIZER", "LILLY",
     "ELI LILLY", "MERCK", "JOHNSON & JOHNSON", "ABBVIE", "AMGEN", "GILEAD", "REGENERON",
     "MODERNA", "BIONTECH", "VERTEX", "ILLUMINA", "DEXCOM", "INTUITIVE SURGICAL",
     "THERMO FISHER", "DANAHER", "ABBOTT"]),
   ("Energy",
    ["EXXON", "CHEVRON", "MARATHON", "OCCIDENTAL", "CONOCOPHILLIPS", "SCHLUMBERGER",
     "HALLIBURTON", "PIONEER", "DEVON", "EOG", "DIAMONDBACK", "COTERRA", "HESS",
     "VALERO", "PHILLIPS 66"]),
   ("Clean Energy",
    ["TESLA", "RIVIAN", "LUCID", "ENPHASE", "SOLAREDGE", "FIRST SOLAR", "SUNRUN",
     "PLUG POWER", "BLOOM ENERGY", "CHARGEPOINT", "EVGO", "NEXTERA"]),
   ("Financials/Banks",
    ["JPMORGAN", "JP MORGAN", "BANK OF AMERICA", "WELLS FARGO", "CITIGROUP", "GOLDMAN",
     "MORGAN STANLEY", "CHARLES SCHWAB", "BLACKROCK", "BLACKSTONE", "KKR", "APOLLO",
     "CARLYLE", "STATE STREET", "NORTHERN TRUST", "BANK OF NEW YORK", "US BANCORP",
     "PNC", "TRUIST", "CAPITAL ONE", "AMERICAN EXPRESS", "DISCOVER", "SYNCHRONY"]),
   ("Industrials",
    ["CATERPILLAR", "DEERE", "JOHN DEERE", "BOEING", "LOCKHEED", "RAYTHEON", "RTX",
     "NORTHROP", "GENERAL DYNAMICS", "L3HARRIS", "HONEYWELL", "3M", "GENERAL ELECTRIC",
     "UNION PACIFIC", "CSX", "NORFOLK", "FEDEX", "UPS", "UNITED PARCEL"]),
   ("Consumer",
    ["COCA-COLA", "PEPSI", "PROCTER", "P&G", "UNILEVER", "COLGATE", "KIMBERLY",
     "CLOROX", "ESTEE LAUDER", "NIKE", "LULULEMON", "STARBUCKS", "MCDONALD", "CHIPOTLE",
     "YUM", "DOMINO"]),
   ("Telecom",
    ["AT&T", "VERIZON", "T-MOBILE", "COMCAST", "CHARTER", "DISH", "LUMEN", "VONAGE"]),
   ("Real Estate",
    ["PROLOGIS", "AMERICAN TOWER", "CROWN CASTLE", "EQUINIX", "DIGITAL REALTY",
     "PUBLIC STORAGE", "REALTY INCOME", "SIMON PROPERTY", "WELLTOWER", "VENTAS",
     "AVALONBAY", "EQUITY RESIDENTIAL"])]

/-- Whether `needle` is an initial segment of `hay`. -/
def charsLeadWith : List Char → List Char → Bool
  | [], _ => true
  | _ :: _, [] => false
  | a :: as, b :: bs => a == b && charsLeadWith as bs

/-- Whether `needle` occurs contiguously in `hay`. -/
def charsContain (needle : List Char) : List Char → Bool
  | [] => needle.isEmpty
  | b :: bs => charsLeadWith needle (b :: bs) || charsContain needle bs

/-- Python's `keyword in name_upper` substring test, on character lists. -/
def strContains (hay needle : String) : Bool :=
  charsContain needle.toList hay.toList

/-- `assign_cluster` of `clustering.py`: first cluster (in table order)
one of whose keywords occurs in the upper-cased issuer name, else
`"Other"`. -/
def assignCluster (issuer_name : String) : String :=
  let name_upper := issuer_name.toUpper
  match CLUSTERS.find? (fun p => p.2.any (fun kw => strContains name_upper kw)) with
  | some p => p.1
  | none => "Other"

/-- The `cluster_starters` grouping of detector 5 for one diff: each
`new_starter` with a non-`"Other"` cluster is appended under its cluster,
clusters in first-appearance order. -/
def clusterStarters (ps : List PositionDiff) : List (String × List String) :=
  ps.foldl (fun acc p =>
    let cluster := assignCluster p.issuer_name
    if cluster ≠ "Other" then dictAppend acc cluster p.issuer_name else acc) []

/-- Detector 5 of `detect_signals` (theme emergence), one diff at a time. -/
def themeSignals (diffs : List QuarterDiff) : List Signal :=
  diffs.flatMap (fun d =>
    (clusterStarters d.new_starters).filterMap (fun cs =>
      if 3 ≤ cs.2.length then
        some { signal_type := "theme_emergence"
               holdings := cs.2
               quarters := [d.period_to]
               strength := if cs.2.length < 5 then "moderate" else "strong"
               details := [("cluster", DetailVal.str cs.1),
                           ("count", DetailVal.int cs.2.length)] }
      else none))

/-- `strength_order.get(s.strength, 3)`. -/
def strengthRank (s : Signal) : Nat :=
  if s.strength = "strong" then 0
  else if s.strength = "moderate" then 1
  else if s.strength = "weak" then 2
  else 3

/-- Python's stable `signals.sort(key=strength_order.get)`: a stable sort
by a key with values in `{0,1,2,3}` is exactly the concatenation of the
four key-preimage sublists in key order. -/
def sortSignalsByStrength (sigs : List Signal) : List Signal :=
  (sigs.filter (fun s => strengthRank s == 0)) ++
  (sigs.filter (fun s => strengthRank s == 1)) ++
  (sigs.filter (fun s => strengthRank s == 2)) ++
  (sigs.filter (fun s => strengthRank s == 3))

/-- `detect_signals` of `signals.py`: the five detectors run in order over
the shared history substrate, then the result is sorted by strength. -/
def detectSignals (diffs : List QuarterDiff) : List Signal :=
  if diffs.isEmpty then []
  else
    sortSignalsByStrength
      (accumSignals diffs ++ bttSignals diffs ++ probeSignals diffs ++
        concSignals diffs ++ themeSignals diffs)

/-- The `(name, period, value, weight)` tuple stored per cusip in
`starter_positions` of `detect_starter_to_scale` (`or 0` already applied). -/
structure StarterInfo where
  name : String
  period : String
  value : Int
  weight : ℚ
deriving DecidableEq, Repr

/-- One output dict of `detect_starter_to_scale`; `growth_rate` is
`float("inf")` (here `⊤`) when the starter value was 0. -/
structure ScaledPos where
  issuer_name : String
  cusip : String
  start_period : String
  start_value : Int
  start_weight : ℚ
  current_value : Int
  current_weight : ℚ
  growth_rate : WithTop ℚ
deriving DecidableEq

/-- `starter_positions`: first `new_starter` appearance per cusip,
traversing the diffs oldest→newest. -/
def starterPositions (diffs : List QuarterDiff) : List (String × StarterInfo) :=
  diffs.reverse.foldl (fun acc d =>
    d.new_starters.foldl (fun acc2 p =>
      if (acc2.lookup p.cusip).isSome then acc2
      else acc2 ++ [(p.cusip,
        { name := p.issuer_name
          period := d.period_to
          value := pyOr0 p.now_value_usd
          weight := p.now_weight.getD 0 })]) acc) []

/-- `all_current` of `detect_starter_to_scale` read at a cusip: the last
position with that cusip among the latest diff's
`new_positions + increased + decreased + unchanged` (dict comprehension,
last write wins). -/
def currentAt (latest : QuarterDiff) (c : String) : Option PositionDiff :=
  (latest.new_positions ++ latest.increased ++ latest.decreased ++
    latest.unchanged).foldl (fun acc p => if p.cusip = c then some p else acc) none

/-- `detect_starter_to_scale` of `signals.py`: empty for fewer than two
diffs; otherwise every ever-new-starter cusip still held whose current
weight exceeds 0.5% or current value exceeds $20M, sorted by growth rate
descending (growth `⊤` for a zero starter value). -/
def detectStarterToScale (diffs : List QuarterDiff) : List ScaledPos :=
  if diffs.length < 2 then []
  else
    match diffs with
    | [] => []
    | latest :: _ =>
      let scaled := (starterPositions diffs).filterMap (fun ci =>
        match currentAt latest ci.1 with
        | none => none
        | some p =>
          let now_weight : ℚ := p.now_weight.getD 0
          let now_value : Int := pyOr0 p.now_value_usd
          if (5 / 1000 : ℚ) < now_weight ∨ 20000000 < now_value then
            some { issuer_name := ci.2.name
                   cusip := ci.1
                   start_period := ci.2.period
                   start_value := ci.2.value
                   start_weight := ci.2.weight
                   current_value := now_value
                   current_weight := now_weight
                   growth_rate :=
                     if 0 < ci.2.value then
                       (((now_value - ci.2.value : Int) : ℚ) / (ci.2.value : ℚ) : ℚ)
                     else ⊤ }
          else none)
      sortListBy (fun a b => decide (b.growth_rate ≤ a.growth_rate)) scaled

/-! ### Specification-side definitions (independent restatements used to
characterize the scan loops) -/

/-- Length of the leading run of consecutive `INCREASE` entries. -/
def leadIncLen : List HistEntry → Nat
  | [] => 0
  | e :: t => if isInc e then leadIncLen t + 1 else 0

/-- Length of the longest run of consecutive `INCREASE` entries: the
maximum over all suffixes of the leading-run length. -/
def maxIncRun : List HistEntry → Nat
  | [] => 0
  | e :: t => max (leadIncLen (e :: t)) (maxIncRun t)

/-- Helper for relating the scan loop to `maxIncRun`: the longest run when
a run of length `c` is already open. -/
def maxFrom (c : Nat) : List HistEntry → Nat
  | [] => c
  | e :: t => if isInc e then maxFrom (c + 1) t else max c (maxFrom 0 t)

/-- The periods of the trailing (final) run of consecutive `INCREASE`
entries of a history. -/
def trailIncQuarters (h : List HistEntry) : List String :=
  ((h.reverse.takeWhile isInc).reverse).map (fun e => e.period)

/-! ### Concrete inputs for counterexamples and witnesses -/

/-- Example starter thresholds (the `Config` defaults: 0.01%, 0.25%, $5M). -/
def cfgEx : Config :=
  { starter_weight_min := 1 / 10000
    starter_weight_max := 25 / 10000
    starter_value_threshold := 5000000 }

/-- A holding present with reported value 0. -/
def hA0 : HoldingRecord :=
  { issuer_name := "ALPHA INC", title_of_class := "COM", cusip := "A0"
    value_usd := 0, shares_or_principal := 0, put_call := none }

/-- A holding with value 100. -/
def hB : HoldingRecord :=
  { issuer_name := "BETA INC", title_of_class := "COM", cusip := "B0"
    value_usd := 100, shares_or_principal := 10, put_call := none }

/-- A second holding with value 100 under a different cusip. -/
def hC : HoldingRecord :=
  { issuer_name := "GAMMA INC", title_of_class := "COM", cusip := "C0"
    value_usd := 100, shares_or_principal := 5, put_call := none }

/-- A neutral `PositionDiff` to be specialized in examples. -/
def basePD : PositionDiff :=
  { cusip := "X1", issuer_name := "XCORP", title_of_class := "COM"
    prev_value_usd := none, now_value_usd := none, delta_value_usd := 0
    prev_shares := none, now_shares := none, delta_shares := 0
    prev_weight := none, now_weight := none, growth_rate := none
    portfolio_impact := none, change_type := "UNCHANGED", is_starter := false }

/-- A neutral `QuarterDiff` with the given `period_to`. -/
def baseQD (pt : String) : QuarterDiff :=
  { fund_id := 1, fund_name := "FUND", period_from := "", period_to := pt
    total_portfolio_prev := 0, total_portfolio_now := 0 }

/-- Four quarters for one security: INCREASE in Q1, Q2, Q3, then DECREASE
in Q4 (most-recent-first, as `detect_signals` expects). -/
def exC1 : List QuarterDiff :=
  [{ baseQD "Q4" with
      decreased := [{ basePD with change_type := "DECREASE", now_value_usd := some 25 }] },
   { baseQD "Q3" with
      increased := [{ basePD with change_type := "INCREASE", now_value_usd := some 30 }] },
   { baseQD "Q2" with
      increased := [{ basePD with change_type := "INCREASE", now_value_usd := some 20 }] },
   { baseQD "Q1" with
      increased := [{ basePD with change_type := "INCREASE", now_value_usd := some 10 }] }]

/-- An INCREASE entry for cusip `X2` under share class `CL A`. -/
def pdClassA (v : Int) : PositionDiff :=
  { basePD with
    cusip := "X2"
    title_of_class := "CL A"
    change_type := "INCREASE"
    now_value_usd := some v }

/-- An INCREASE entry for cusip `X2` under the distinct share class
`CL B` (a different matching key in the diff engine's sense). -/
def pdClassB (v : Int) : PositionDiff :=
  { basePD with
    cusip := "X2"
    title_of_class := "CL B"
    change_type := "INCREASE"
    now_value_usd := some v }

/-- Three quarters in which class A increases in Q1 and Q3 while class B
(same cusip, different title of class) increases in Q2. -/
def exC2 : List QuarterDiff :=
  [{ baseQD "Q3" with increased := [pdClassA 30] },
   { baseQD "Q2" with increased := [pdClassB 999] },
   { baseQD "Q1" with increased := [pdClassA 10] }]

/-- A new starter whose current weight (0.9%) exceeds the 0.5%
starter-to-scale bar. -/
def fatStarter : PositionDiff :=
  { basePD with
    cusip := "S1"
    issuer_name := "SIGMA CORP"
    change_type := "NEW"
    now_value_usd := some 1000000
    now_weight := some (9 / 1000)
    is_starter := true }

/-- A single diff containing `fatStarter`. -/
def exC10d : QuarterDiff :=
  { baseQD "Q1" with new_positions := [fatStarter], new_starters := [fatStarter] }

/-- The first `PositionDiff` produced when diffing `[hB, hC]` against
itself (used as a concrete instance below). -/
def selfDiffB : PositionDiff :=
  (positionDiffsOf [hB, hC] [hB, hC] cfgEx).head?.getD basePD

/-! ### Theorems -/

/-- C10: `detect_starter_to_scale` returns the empty list whenever fewer
than two `QuarterDiff`s are supplied — the `len(diffs) < 2` early return
fires before any starter is examined. -/
theorem starter_to_scale_needs_two (diffs : List QuarterDiff)
    (h : diffs.length < 2) : detectStarterToScale diffs = [] := by
  unfold detectStarterToScale
  simp [h]

/-- C10 witness: a single diff containing a new starter whose current
weight 0.9% exceeds the 0.5% bar still yields the empty list. -/
theorem starter_to_scale_needs_two_witness :
    (fatStarter ∈ exC10d.new_starters ∧
      fatStarter.now_weight = some (9 / 1000) ∧ (5 / 1000 : ℚ) < (9 / 1000 : ℚ)) ∧
    detectStarterToScale [exC10d] = [] :=
  ⟨by decide, starter_to_scale_needs_two [exC10d] (by decide)⟩

/-- C7: the starter flag is `now_value < starter_value_threshold`
(strict) or `starter_weight_min ≤ now_weight ≤ starter_weight_max`
(inclusive), evaluated on the current-side value and weight only; a value
exactly at the threshold contributes nothing, a weight exactly at either
bound qualifies. -/
theorem starter_flag_rule (cfg : Config)
    (hwm : cfg.starter_weight_min ≤ cfg.starter_weight_max) :
    (∀ (w : Option ℚ) (v : Option Int),
      isStarter w v cfg = true ↔
        ((∃ x, v = some x ∧ x < cfg.starter_value_threshold) ∨
         (∃ q, w = some q ∧ cfg.starter_weight_min ≤ q ∧ q ≤ cfg.starter_weight_max))) ∧
    (∀ (prev now : List HoldingRecord) (k : String) (d : PositionDiff),
      mkPositionDiff (dictOf prev k) (dictOf now k)
          (totalValue prev) (totalValue now) cfg = some d →
        d.is_starter = isStarter d.now_weight d.now_value_usd cfg) ∧
    (∀ w, isStarter w (some cfg.starter_value_threshold) cfg = isStarter w none cfg) ∧
    isStarter (some cfg.starter_weight_min) none cfg = true ∧
    isStarter (some cfg.starter_weight_max) none cfg = true := by
  refine ⟨?_, ?_, ?_, ?_, ?_⟩
  · intro w v
    cases v <;> cases w <;>
      simp [isStarter, valueIsStarter, weightIsStarter]
  · intro prev now k d hmk
    cases hp : dictOf prev k <;> cases hn : dictOf now k <;>
      rw [hp, hn] at hmk <;>
      simp only [mkPositionDiff] at hmk
    · cases hmk
    all_goals
      cases hmk
      rfl
  · intro w
    cases w <;> simp [isStarter, valueIsStarter, weightIsStarter]
  · simp [isStarter, weightIsStarter, le_refl, hwm]
  · simp [isStarter, weightIsStarter, le_refl, hwm]

/-- C7 witness: at the default thresholds, a weight exactly at the lower
bound makes a starter. -/
theorem starter_flag_rule_witness :
    cfgEx.starter_weight_min ≤ cfgEx.starter_weight_max ∧
    isStarter (some cfgEx.starter_weight_min) none cfgEx = true :=
  ⟨by decide, (starter_flag_rule cfgEx (by decide)).2.2.2.1⟩

/-- C1 counterexample: for the history INCREASE, INCREASE, INCREASE,
DECREASE the consistent-accumulator signal is emitted (longest run 3,
strength moderate) but its quarter list is empty — not the final 3
quarters Q1, Q2, Q3 of the longest run, because `increase_quarters` is
reset by the concluding DECREASE. -/
theorem accumulator_quarters_cex :
    (detectSignals exC1).filter (fun s => s.signal_type == "consistent_accumulator") =
      [{ signal_type := "consistent_accumulator"
         holdings := ["XCORP"]
         quarters := []
         strength := "moderate"
         details := [("consecutive_increases", DetailVal.int 3)] }] :=
  by decide

/-- C2 counterexample: two positions share cusip `X2` but carry different
titles of class (`CL A` vs `CL B`), so their matching keys differ; yet
`detect_signals` merges them into one history of 3 entries (the `CL B`
value 999 interleaved between the `CL A` entries) and even emits a
consistent-accumulator signal from the merged run — under per-matching-key
histories the runs would have lengths 2 and 1. -/
theorem history_fullkey_cex :
    (pdClassA 10).title_of_class ≠ (pdClassB 999).title_of_class ∧
    histAt exC2 "X2" =
      [{ period := "Q1", value := some 10, weight := none, change := "INCREASE" },
       { period := "Q2", value := some 999, weight := none, change := "INCREASE" },
       { period := "Q3", value := some 30, weight := none, change := "INCREASE" }] ∧
    (detectSignals exC2).filter (fun s => s.signal_type == "consistent_accumulator") ≠ [] :=
  by decide

/-- C3 counterexample: with no prior holdings and current holdings of
values 0 and 100 (period total 100 > 0), the position present with value
0 gets `now_weight = None`, not `0.0` — Python's `if now_value` treats 0
as falsy. -/
theorem weight_zero_value_cex :
    totalValue [hA0, hB] = 100 ∧
    (positionDiffsOf [] [hA0, hB] cfgEx).map
        (fun d => (d.cusip, d.now_value_usd, d.now_weight)) =
      [("A0", some 0, none), ("B0", some 100, some 1)] :=
  by decide

/-- C4 counterexample: an EXIT position with prior value 100 > 0 has
`growth_rate = None`, because the code additionally requires
`now_value is not None`. -/
theorem growth_rate_exit_cex :
    (positionDiffsOf [hB] [] cfgEx).map
        (fun d => (d.change_type, d.prev_value_usd, d.growth_rate)) =
      [("EXIT", some 100, none)] :=
  by decide

@[simp]
theorem pyTruthy_none : pyTruthy none = false := rfl

@[simp]
theorem pyTruthy_some (z : Int) : pyTruthy (some z) = (z != 0) := rfl

@[simp]
theorem pyOr0_none : pyOr0 none = 0 := rfl

@[simp]
theorem pyOr0_some (z : Int) : pyOr0 (some z) = z := rfl

/-- C3 amended: a produced position's weight is `value / period total`
when the side is present with a nonzero value and the period total is
nonzero, and `None` exactly when the side is absent, the reported value
is 0 (Python truthiness), or the period total is 0. -/
theorem weight_rule (prev now : List HoldingRecord) (cfg : Config) (k : String)
    (d : PositionDiff)
    (hmk : mkPositionDiff (dictOf prev k) (dictOf now k)
        (totalValue prev) (totalValue now) cfg = some d) :
    (d.now_weight = none ↔
      dictOf now k = none ∨ (∃ h, dictOf now k = some h ∧ h.value_usd = 0) ∨
        totalValue now = 0) ∧
    (∀ h, dictOf now k = some h → h.value_usd ≠ 0 → totalValue now ≠ 0 →
      d.now_weight = some ((h.value_usd : ℚ) / (totalValue now : ℚ))) ∧
    (d.prev_weight = none ↔
      dictOf prev k = none ∨ (∃ h, dictOf prev k = some h ∧ h.value_usd = 0) ∨
        totalValue prev = 0) ∧
    (∀ h, dictOf prev k = some h → h.value_usd ≠ 0 → totalValue prev ≠ 0 →
      d.prev_weight = some ((h.value_usd : ℚ) / (totalValue prev : ℚ))) := by
  cases hp : dictOf prev k <;> cases hn : dictOf now k <;>
    rw [hp, hn] at hmk <;> simp only [mkPositionDiff] at hmk
  · cases hmk
  all_goals
    rw [Option.some.injEq] at hmk
    subst hmk
    refine ⟨?_, ?_, ?_, ?_⟩ <;>
      simp only [mkPositionDiffRef, pyTruthy_none, pyTruthy_some, pyOr0_none, pyOr0_some,
        Option.map_none', Option.map_some', Option.some.injEq, reduceCtorEq] <;>
      split_ifs <;>
      simp_all [bne_iff_ne] <;>
      tauto

/-- C3 amended, witness: diffing `[hB, hC]` against itself at key
`B0|COM|NONE` instantiates the weight rule. -/
theorem weight_rule_witness :
    selfDiffB.now_weight = none ↔
      dictOf [hB, hC] "B0|COM|NONE" = none ∨
        (∃ h, dictOf [hB, hC] "B0|COM|NONE" = some h ∧ h.value_usd = 0) ∨
        totalValue [hB, hC] = 0 :=
  (weight_rule [hB, hC] [hB, hC] cfgEx "B0|COM|NONE" selfDiffB (by decide)).1

/-- C4 amended: the growth rate is defined exactly when the prior value
is positive and the position is also present on the current side; where
defined it equals `(now - prev) / prev`. -/
theorem growth_rate_rule (prev now : List HoldingRecord) (cfg : Config) (k : String)
    (d : PositionDiff)
    (hmk : mkPositionDiff (dictOf prev k) (dictOf now k)
        (totalValue prev) (totalValue now) cfg = some d) :
    (d.growth_rate = none ↔
      ¬ ((∃ h, dictOf prev k = some h ∧ 0 < h.value_usd) ∧
          (dictOf now k).isSome = true)) ∧
    (∀ hp hn, dictOf prev k = some hp → dictOf now k = some hn →
      0 < hp.value_usd →
      d.growth_rate =
        some (((hn.value_usd - hp.value_usd : Int) : ℚ) / (hp.value_usd : ℚ))) := by
  cases hp : dictOf prev k <;> cases hn : dictOf now k <;>
    rw [hp, hn] at hmk <;> simp only [mkPositionDiff] at hmk
  · cases hmk
  all_goals
    rw [Option.some.injEq] at hmk
    subst hmk
    refine ⟨?_, ?_⟩ <;>
      simp only [mkPositionDiffRef, pyTruthy_none, pyTruthy_some, pyOr0_none, pyOr0_some,
        Option.map_none', Option.map_some', Option.isSome_none, Option.isSome_some,
        Option.some.injEq, reduceCtorEq] <;>
      split_ifs <;>
      simp_all [bne_iff_ne] <;>
      omega

/-- C4 amended, witness: at the EXIT of `hB` the growth rate is `None`
because the current side is absent, although the prior value 100 is
positive. -/
theorem growth_rate_rule_witness :
    ((positionDiffsOf [hB] [] cfgEx).head?.getD basePD).growth_rate = none ↔
      ¬ ((∃ h, dictOf [hB] "B0|COM|NONE" = some h ∧ 0 < h.value_usd) ∧
          (dictOf [] "B0|COM|NONE").isSome = true) :=
  (growth_rate_rule [hB] [] cfgEx "B0|COM|NONE"
    ((positionDiffsOf [hB] [] cfgEx).head?.getD basePD) (by decide)).1

/-- Zero denominators never raise: they produce `None` fields. -/
theorem zero_total_none (hp hn : Option HoldingRecord) (tp tn : Int) (cfg : Config)
    (d : PositionDiff) (hmk : mkPositionDiff hp hn tp tn cfg = some d) :
    (tn = 0 → d.now_weight = none) ∧
    (tp = 0 → d.prev_weight = none ∧ d.portfolio_impact = none) := by
  cases hn <;> cases hp <;> simp only [mkPositionDiff] at hmk
  · cases hmk
  all_goals
    rw [Option.some.injEq] at hmk
    subst hmk
    constructor
    · rintro rfl
      simp [mkPositionDiffRef]
    · rintro rfl
      simp [mkPositionDiffRef]

/-- C6: the diff computation is total — in particular, with no current
holdings the concentration and Herfindahl diagnostics are 0.0, both-empty
input yields no position diffs at all, and a zero period total makes the
dependent weight/impact fields `None` instead of dividing. -/
theorem arithmetic_safety (prev now : List HoldingRecord) (cfg : Config)
    (fid : Int) (fn pf pt : String) :
    ((computeQuarterDiff fid fn pf pt prev [] cfg).concentration_top5 = 0 ∧
     (computeQuarterDiff fid fn pf pt prev [] cfg).concentration_top10 = 0 ∧
     (computeQuarterDiff fid fn pf pt prev [] cfg).herfindahl_index = 0) ∧
    positionDiffsOf [] [] cfg = [] ∧
    (totalValue now = 0 → ∀ d ∈ positionDiffsOf prev now cfg, d.now_weight = none) ∧
    (totalValue prev = 0 → ∀ d ∈ positionDiffsOf prev now cfg,
      d.prev_weight = none ∧ d.portfolio_impact = none) := by
  refine ⟨⟨?_, ?_, ?_⟩, ?_, ?_, ?_⟩
  · simp [computeQuarterDiff, weightsNow, totalValue, sortListBy, concTopN]
  · simp [computeQuarterDiff, weightsNow, totalValue, sortListBy, concTopN]
  · simp [computeQuarterDiff, weightsNow, totalValue, sortListBy]
  · rfl
  · intro h0 d hd
    obtain ⟨k, _, hmk⟩ := List.mem_filterMap.mp hd
    rw [h0] at hmk
    exact (zero_total_none _ _ _ _ cfg d hmk).1 rfl
  · intro h0 d hd
    obtain ⟨k, _, hmk⟩ := List.mem_filterMap.mp hd
    rw [h0] at hmk
    exact (zero_total_none _ _ _ _ cfg d hmk).2 rfl

/-- C6 witness: the totally-exited portfolio `prev = [hB]`, `now = []`
has zero diagnostics, and its one EXIT diff has no current-side weight. -/
theorem arithmetic_safety_witness :
    (computeQuarterDiff 1 "F" "p" "q" [hB] [] cfgEx).concentration_top5 = 0 ∧
    ∀ d ∈ positionDiffsOf [hB] [] cfgEx, d.now_weight = none :=
  ⟨(arithmetic_safety [hB] [] cfgEx 1 "F" "p" "q").1.1,
   (arithmetic_safety [hB] [] cfgEx 1 "F" "p" "q").2.2.1 (by decide)⟩

/-- C8: diffing a holdings list against itself gives equal position
counts and only `UNCHANGED` diffs with zero delta. -/
theorem diff_self_unchanged (H : List HoldingRecord) (cfg : Config)
    (fid : Int) (fn pf pt : String) :
    (computeQuarterDiff fid fn pf pt H H cfg).position_count_now =
      (computeQuarterDiff fid fn pf pt H H cfg).position_count_prev ∧
    ∀ d ∈ positionDiffsOf H H cfg, d.change_type = "UNCHANGED" ∧ d.delta_value_usd = 0 := by
  constructor
  · simp [computeQuarterDiff]
  · intro d hd
    obtain ⟨k, _, hmk⟩ := List.mem_filterMap.mp hd
    cases ho : dictOf H k <;> rw [ho] at hmk <;> simp only [mkPositionDiff] at hmk
    · cases hmk
    · rw [Option.some.injEq] at hmk
      subst hmk
      constructor <;> simp [mkPositionDiffRef, sub_self, lt_irrefl]

/-- C8 witness: the first diff of `[hB, hC]` against itself is UNCHANGED
with zero delta. -/
theorem diff_self_unchanged_witness :
    selfDiffB.change_type = "UNCHANGED" ∧ selfDiffB.delta_value_usd = 0 :=
  (diff_self_unchanged [hB, hC] cfgEx 1 "F" "p" "q").2 selfDiffB (by decide)

/-- The classification of every produced diff is one of the five tags. -/
theorem change_type_cases (hp hn : Option HoldingRecord) (tp tn : Int) (cfg : Config)
    (d : PositionDiff) (hmk : mkPositionDiff hp hn tp tn cfg = some d) :
    d.change_type = "NEW" ∨ d.change_type = "EXIT" ∨ d.change_type = "INCREASE" ∨
      d.change_type = "DECREASE" ∨ d.change_type = "UNCHANGED" := by
  cases hn <;> cases hp <;> simp only [mkPositionDiff] at hmk
  · cases hmk
  all_goals
    rw [Option.some.injEq] at hmk
    subst hmk
    simp only [mkPositionDiffRef]
    split_ifs <;> simp

/-- A key matched on at least one side always yields a diff. -/
theorem mkPositionDiff_isSome (hp hn : Option HoldingRecord) (tp tn : Int) (cfg : Config)
    (h : hp.isSome = true ∨ hn.isSome = true) :
    (mkPositionDiff hp hn tp tn cfg).isSome = true := by
  cases hp <;> cases hn <;> simp_all [mkPositionDiff]

/-- `dedupFirstAux` only returns elements of its input. -/
theorem mem_of_mem_dedupFirstAux :
    ∀ (l seen : List String) (x : String), x ∈ dedupFirstAux seen l → x ∈ l := by
  intro l
  induction l with
  | nil => intro seen x hx; simp [dedupFirstAux] at hx
  | cons k rest ih =>
    intro seen x hx
    simp only [dedupFirstAux] at hx
    split at hx
    · exact List.mem_cons_of_mem _ (ih seen x hx)
    · rcases List.mem_cons.mp hx with h | h
      · exact h ▸ List.mem_cons_self _ _
      · exact List.mem_cons_of_mem _ (ih _ x h)

/-- The last-wins dict lookup succeeds exactly when some element of the
list has the requested key (stated with an arbitrary initial value for the
fold). -/
theorem dictOf_fold_isSome (k : String) :
    ∀ (hs : List HoldingRecord) (init : Option HoldingRecord),
      ((hs.foldl (fun acc h => if holdingKey h = k then some h else acc) init).isSome) =
        (init.isSome || hs.any (fun h => decide (holdingKey h = k))) := by
  intro hs
  induction hs with
  | nil => intro init; simp
  | cons a t ih =>
    intro init
    simp only [List.foldl_cons, List.any_cons]
    rw [ih]
    by_cases ha : holdingKey a = k <;> simp [ha]

/-- A key present in `hs.map holdingKey` is found by `dictOf`. -/
theorem dictOf_isSome_of_mem (hs : List HoldingRecord) (k : String)
    (hk : k ∈ hs.map holdingKey) : (dictOf hs k).isSome = true := by
  obtain ⟨h, hh, rfl⟩ := List.mem_map.mp hk
  unfold dictOf
  rw [dictOf_fold_isSome]
  simp only [Option.isSome_none, Bool.false_or, List.any_eq_true]
  exact ⟨h, hh, by simp⟩

/-- `filterMap` over a list on which `f` never fails keeps the length. -/
theorem length_filterMap_of_isSome {α β : Type} (f : α → Option β) :
    ∀ l : List α, (∀ x ∈ l, (f x).isSome = true) → (l.filterMap f).length = l.length := by
  intro l
  induction l with
  | nil => intro _; simp
  | cons a t ih =>
    intro h
    obtain ⟨b, hb⟩ := Option.isSome_iff_exists.mp (h a (List.mem_cons_self a t))
    simp [List.filterMap_cons, hb, ih (fun x hx => h x (List.mem_cons_of_mem a hx))]

/-- Inserting an element in the middle of a permutation. -/
theorem perm_insert_middle {α : Type} (A B C : List α) (d : α)
    (h : (A ++ B).Perm C) : (A ++ d :: B).Perm (d :: C) :=
  List.perm_middle.trans (h.cons d)

/-- A list each of whose elements carries one of the five classification
tags is a permutation of its five classification buckets in order. -/
theorem filter_five_partition :
    ∀ l : List PositionDiff,
      (∀ d ∈ l, d.change_type = "NEW" ∨ d.change_type = "EXIT" ∨
        d.change_type = "INCREASE" ∨ d.change_type = "DECREASE" ∨
        d.change_type = "UNCHANGED") →
      (l.filter (fun d => decide (d.change_type = "NEW")) ++
       (l.filter (fun d => decide (d.change_type = "EXIT")) ++
        (l.filter (fun d => decide (d.change_type = "INCREASE")) ++
         (l.filter (fun d => decide (d.change_type = "DECREASE")) ++
          l.filter (fun d => decide (d.change_type = "UNCHANGED")))))).Perm l := by
  intro l
  induction l with
  | nil => intro _; simp
  | cons a t ih =>
    intro h
    have ht := ih (fun d hd => h d (List.mem_cons_of_mem a hd))
    rcases h a (List.mem_cons_self a t) with ha | ha | ha | ha | ha <;>
      simp only [List.filter_cons, ha, String.reduceEq, decide_True, decide_False,
        Bool.false_eq_true, if_true, if_false, ite_true, ite_false, List.cons_append]
    · exact ht.cons a
    · exact perm_insert_middle _ _ _ a ht
    · rw [← List.append_assoc]
      rw [← List.append_assoc] at ht
      exact perm_insert_middle _ _ _ a ht
    · rw [← List.append_assoc, ← List.append_assoc]
      rw [← List.append_assoc, ← List.append_assoc] at ht
      exact perm_insert_middle _ _ _ a ht
    · rw [← List.append_assoc, ← List.append_assoc, ← List.append_assoc]
      rw [← List.append_assoc, ← List.append_assoc, ← List.append_assoc] at ht
      exact perm_insert_middle _ _ _ a ht

/-- C5: the classification decision order, and the five category lists
partition the produced diffs — one diff per matching key in the union of
the two sides. -/
theorem classification_partition (prev now : List HoldingRecord) (cfg : Config)
    (fid : Int) (fn pf pt : String) :
    (∀ k d, mkPositionDiff (dictOf prev k) (dictOf now k)
        (totalValue prev) (totalValue now) cfg = some d →
      d.change_type =
        (if dictOf prev k = none ∧ dictOf now k ≠ none then "NEW"
         else if dictOf prev k ≠ none ∧ dictOf now k = none then "EXIT"
         else if 0 < d.delta_value_usd then "INCREASE"
         else if d.delta_value_usd < 0 then "DECREASE"
         else "UNCHANGED")) ∧
    ((computeQuarterDiff fid fn pf pt prev now cfg).new_positions ++
     (computeQuarterDiff fid fn pf pt prev now cfg).sold_out ++
     (computeQuarterDiff fid fn pf pt prev now cfg).increased ++
     (computeQuarterDiff fid fn pf pt prev now cfg).decreased ++
     (computeQuarterDiff fid fn pf pt prev now cfg).unchanged).Perm
      (positionDiffsOf prev now cfg) ∧
    (positionDiffsOf prev now cfg).length = (unionKeys prev now).length := by
  refine ⟨?_, ?_, ?_⟩
  · intro k d hmk
    cases hp : dictOf prev k <;> cases hn : dictOf now k <;>
      rw [hp, hn] at hmk <;> simp only [mkPositionDiff] at hmk
    · cases hmk
    all_goals
      rw [Option.some.injEq] at hmk
      subst hmk
      simp [mkPositionDiffRef]
  · have hl : ∀ d ∈ positionDiffsOf prev now cfg,
        d.change_type = "NEW" ∨ d.change_type = "EXIT" ∨ d.change_type = "INCREASE" ∨
          d.change_type = "DECREASE" ∨ d.change_type = "UNCHANGED" := by
      intro d hd
      obtain ⟨k, _, hmk⟩ := List.mem_filterMap.mp hd
      exact change_type_cases _ _ _ _ cfg d hmk
    simpa [computeQuarterDiff] using filter_five_partition (positionDiffsOf prev now cfg) hl
  · apply length_filterMap_of_isSome
    intro k hk
    have hk2 : k ∈ prev.map holdingKey ++ now.map holdingKey :=
      mem_of_mem_dedupFirstAux _ _ _ hk
    rcases List.mem_append.mp hk2 with h | h
    · exact mkPositionDiff_isSome _ _ _ _ cfg (Or.inl (dictOf_isSome_of_mem prev k h))
    · exact mkPositionDiff_isSome _ _ _ _ cfg (Or.inr (dictOf_isSome_of_mem now k h))

/-- C5 witness: the classification rule instantiated at the self-diff of
`[hB, hC]` and its key `B0|COM|NONE`. -/
theorem classification_partition_witness :
    selfDiffB.change_type =
      (if dictOf [hB, hC] "B0|COM|NONE" = none ∧ dictOf [hB, hC] "B0|COM|NONE" ≠ none
       then "NEW"
       else if dictOf [hB, hC] "B0|COM|NONE" ≠ none ∧ dictOf [hB, hC] "B0|COM|NONE" = none
       then "EXIT"
       else if 0 < selfDiffB.delta_value_usd then "INCREASE"
       else if selfDiffB.delta_value_usd < 0 then "DECREASE"
       else "UNCHANGED") :=
  (classification_partition [hB, hC] [hB, hC] cfgEx 1 "F" "p" "q").1
    "B0|COM|NONE" selfDiffB (by decide)

/-- Stable insertion permutes. -/
theorem insertSortedBy_perm {α : Type} (le : α → α → Bool) (x : α) :
    ∀ l : List α, (insertSortedBy le x l).Perm (x :: l) := by
  intro l
  induction l with
  | nil => exact List.Perm.refl _
  | cons y ys ih =>
    simp only [insertSortedBy]
    split
    · exact List.Perm.refl _
    · exact (ih.cons y).trans (List.Perm.swap x y ys)

/-- The insertion sort is a permutation of its input. -/
theorem sortListBy_perm {α : Type} (le : α → α → Bool) :
    ∀ l : List α, (sortListBy le l).Perm l := by
  intro l
  induction l with
  | nil => exact List.Perm.refl _
  | cons x xs ih => exact (insertSortedBy_perm le x _).trans (ih.cons x)

/-- Summing the per-holding weights is dividing the summed values. -/
theorem weights_sum (l : List HoldingRecord) (T : ℚ) :
    (l.map (fun h => (h.value_usd : ℚ) / T)).sum = ((totalValue l : Int) : ℚ) / T := by
  induction l with
  | nil => simp [totalValue]
  | cons a t ih =>
    simp only [List.map_cons, List.sum_cons, ih, totalValue]
    push_cast
    ring

/-- Both branches of `concTopN` sum a `take`. -/
theorem concTopN_take (n : Nat) (ws : List ℚ) : concTopN n ws = (ws.take n).sum := by
  unfold concTopN
  split
  · rfl
  · rw [List.take_of_length_le (by omega)]

/-- C9: with nonnegative holding values and a positive current total,
`0 ≤ concentration_top5 ≤ concentration_top10 ≤ 1`. -/
theorem concentration_invariant (prev now : List HoldingRecord) (cfg : Config)
    (fid : Int) (fn pf pt : String)
    (hnn : ∀ h ∈ now, 0 ≤ h.value_usd) (hpos : 0 < totalValue now) :
    0 ≤ (computeQuarterDiff fid fn pf pt prev now cfg).concentration_top5 ∧
    (computeQuarterDiff fid fn pf pt prev now cfg).concentration_top5 ≤
      (computeQuarterDiff fid fn pf pt prev now cfg).concentration_top10 ∧
    (computeQuarterDiff fid fn pf pt prev now cfg).concentration_top10 ≤ 1 := by
  have hproj5 : (computeQuarterDiff fid fn pf pt prev now cfg).concentration_top5 =
      concTopN 5 (weightsNow now) := by
    simp [computeQuarterDiff]
  have hproj10 : (computeQuarterDiff fid fn pf pt prev now cfg).concentration_top10 =
      concTopN 10 (weightsNow now) := by
    simp [computeQuarterDiff]
  have hperm : (weightsNow now).Perm
      (now.map (fun h => (h.value_usd : ℚ) / (totalValue now : ℚ))) := by
    simp only [weightsNow]
    rw [if_pos hpos]
    exact sortListBy_perm _ _
  have hmem : ∀ w ∈ weightsNow now, 0 ≤ w := by
    intro w hw
    obtain ⟨h, hh, rfl⟩ := List.mem_map.mp (hperm.mem_iff.mp hw)
    apply div_nonneg
    · exact_mod_cast hnn h hh
    · exact_mod_cast hpos.le
  have hTne : ((totalValue now : Int) : ℚ) ≠ 0 := by
    exact_mod_cast hpos.ne'
  have hsum : (weightsNow now).sum = 1 := by
    rw [hperm.sum_eq, weights_sum]
    field_simp
  have hnn5 : 0 ≤ ((weightsNow now).take 5).sum :=
    List.sum_nonneg (fun x hx => hmem x (List.take_subset _ _ hx))
  have hsplit : (weightsNow now).take 10 =
      (weightsNow now).take 5 ++ ((weightsNow now).drop 5).take 5 := by
    have h55 : (10 : Nat) = 5 + 5 := rfl
    rw [h55, List.take_add]
  have hnnmid : 0 ≤ (((weightsNow now).drop 5).take 5).sum :=
    List.sum_nonneg (fun x hx =>
      hmem x (List.drop_subset _ _ (List.take_subset _ _ hx)))
  have hnndrop : 0 ≤ ((weightsNow now).drop 10).sum :=
    List.sum_nonneg (fun x hx => hmem x (List.drop_subset _ _ hx))
  have htotal : ((weightsNow now).take 10).sum + ((weightsNow now).drop 10).sum = 1 := by
    rw [← List.sum_append, List.take_append_drop]
    exact hsum
  refine ⟨?_, ?_, ?_⟩
  · rw [hproj5, concTopN_take]
    exact hnn5
  · rw [hproj5, hproj10, concTopN_take, concTopN_take, hsplit, List.sum_append]
    linarith
  · rw [hproj10, concTopN_take]
    linarith

/-- C9 witness: two equal current holdings of value 100 each give
concentrations exactly 1. -/
theorem concentration_invariant_witness :
    0 ≤ (computeQuarterDiff 1 "F" "p" "q" [] [hB, hC] cfgEx).concentration_top5 ∧
    (computeQuarterDiff 1 "F" "p" "q" [] [hB, hC] cfgEx).concentration_top5 ≤
      (computeQuarterDiff 1 "F" "p" "q" [] [hB, hC] cfgEx).concentration_top10 ∧
    (computeQuarterDiff 1 "F" "p" "q" [] [hB, hC] cfgEx).concentration_top10 ≤ 1 :=
  concentration_invariant [] [hB, hC] cfgEx 1 "F" "p" "q" (by decide) (by decide)

/-- Unfolding one step of `List.lookup` under `getD`. -/
theorem lookup_cons_getD {α : Type} (c k : String) (v : List α)
    (rest : List (String × List α)) :
    ((((k, v) :: rest).lookup c).getD []) =
      if k = c then v else (rest.lookup c).getD [] := by
  by_cases h : c = k
  · subst h
    simp [List.lookup]
  · simp only [List.lookup]
    rw [beq_eq_false_iff_ne.mpr h, if_neg (fun hh => h hh.symm)]

/-- Looking up after one `dictAppend`: the appended entry lands at the end
of its key's list and leaves every other key untouched. -/
theorem lookup_dictAppend {α : Type} (k c : String) (e : α) :
    ∀ d : List (String × List α),
      (((dictAppend d k e).lookup c).getD []) =
        if k = c then ((d.lookup c).getD []) ++ [e] else (d.lookup c).getD [] := by
  intro d
  induction d with
  | nil =>
    simp only [dictAppend]
    rw [lookup_cons_getD]
    by_cases h : k = c <;> simp [List.lookup, h]
  | cons p rest ih =>
    obtain ⟨k', v⟩ := p
    simp only [dictAppend]
    by_cases hk : k' = k
    · subst hk
      rw [if_pos rfl, lookup_cons_getD, lookup_cons_getD]
      by_cases hc : k' = c
      · rw [if_pos hc, if_pos hc, if_pos hc]
      · rw [if_neg hc, if_neg hc, if_neg hc]
    · rw [if_neg hk, lookup_cons_getD, lookup_cons_getD]
      by_cases hc : k' = c
      · rw [if_pos hc, if_pos hc, if_neg (fun hh : k = c => hk (hc.trans hh.symm))]
      · rw [if_neg hc, if_neg hc, ih]

/-- Folding a pair list into the dict appends, per key, exactly the
entries carrying that key, in traversal order. -/
theorem lookup_dictAppendAll {α : Type} (ps : List (String × α)) :
    ∀ (d : List (String × List α)) (c : String),
      (((dictAppendAll d ps).lookup c).getD []) =
        ((d.lookup c).getD []) ++
          (ps.filter (fun pr => pr.1 == c)).map (fun pr => pr.2) := by
  induction ps with
  | nil =>
    intro d c
    simp [dictAppendAll]
  | cons pr ps ih =>
    intro d c
    have hstep : dictAppendAll d (pr :: ps) = dictAppendAll (dictAppend d pr.1 pr.2) ps := by
      simp [dictAppendAll]
    rw [hstep, ih, lookup_dictAppend]
    by_cases h : pr.1 = c
    · simp [List.filter_cons, h, beq_iff_eq]
    · simp [List.filter_cons, h, beq_iff_eq]

/-- C2 amended: the reconstructed history of a cusip consists of exactly
the entries of the positions carrying that cusip, in traversal order —
the matching key's title-of-class and option-flag components play no role
in `detect_signals`' history reconstruction. -/
theorem history_keyed_by_cusip_only (diffs : List QuarterDiff) (c : String) :
    histAt diffs c =
      ((chronEntries diffs).filter (fun pr => pr.1 == c)).map (fun pr => pr.2) := by
  unfold histAt buildHistory
  rw [lookup_dictAppendAll]
  simp [List.lookup]

/-- The scan state's running maximum, folded to the end, is the longest
run: stated with `maxFrom` to carry the already-open run through the
induction. -/
theorem accum_fold_max :
    ∀ (h : List HistEntry) (c m : Nat) (qs : List String),
      max (h.foldl accumStep ⟨c, m, qs⟩).mx (h.foldl accumStep ⟨c, m, qs⟩).con =
        max m (maxFrom c h) := by
  intro h
  induction h with
  | nil => intro c m qs; simp [maxFrom]
  | cons e t ih =>
    intro c m qs
    simp only [List.foldl_cons, accumStep, maxFrom]
    by_cases he : isInc e
    · rw [if_pos he, if_pos he, ih]
    · rw [if_neg he, if_neg he, ih, Nat.max_assoc]

/-- The leading run is never longer than the longest run. -/
theorem leadIncLen_le_maxIncRun : ∀ h : List HistEntry, leadIncLen h ≤ maxIncRun h := by
  intro h
  cases h with
  | nil => exact Nat.le_refl 0
  | cons e t => exact Nat.le_max_left _ _

/-- `maxFrom` in terms of the leading run and the longest run. -/
theorem maxFrom_eq : ∀ (h : List HistEntry) (c : Nat),
    maxFrom c h = max (c + leadIncLen h) (maxIncRun h) := by
  intro h
  induction h with
  | nil => intro c; simp [maxFrom, leadIncLen, maxIncRun]
  | cons e t ih =>
    intro c
    by_cases he : isInc e
    · simp only [maxFrom, leadIncLen, maxIncRun, he, if_pos]
      rw [ih]
      have hle := leadIncLen_le_maxIncRun t
      omega
    · simp [maxFrom, leadIncLen, maxIncRun, he]
      rw [ih]
      have hle := leadIncLen_le_maxIncRun t
      omega

/-- The `max_consecutive` finally used by the detector is exactly the
longest run of consecutive INCREASE entries. -/
theorem accumMax_eq (h : List HistEntry) : accumMax h = maxIncRun h := by
  unfold accumMax accumScan
  rw [accum_fold_max h 0 0 [], maxFrom_eq]
  have := leadIncLen_le_maxIncRun h
  omega

/-- `takeWhile` passes a fully-satisfying prefix through. -/
theorem takeWhile_append_of_all {α : Type} (p : α → Bool) :
    ∀ (l l' : List α), (∀ x ∈ l, p x = true) →
      (l ++ l').takeWhile p = l ++ l'.takeWhile p := by
  intro l l'
  induction l with
  | nil => intro _; simp
  | cons a t ih =>
    intro hall
    simp only [List.cons_append, List.takeWhile_cons, hall a (List.mem_cons_self a t),
      if_true]
    rw [ih (fun x hx => hall x (List.mem_cons_of_mem a hx))]

/-- `takeWhile` stops inside a prefix containing a failing element. -/
theorem takeWhile_append_of_not_all {α : Type} (p : α → Bool) :
    ∀ (l l' : List α), ¬ (∀ x ∈ l, p x = true) →
      (l ++ l').takeWhile p = l.takeWhile p := by
  intro l l'
  induction l with
  | nil => intro hall; exact absurd (fun x hx => absurd hx (List.not_mem_nil x)) hall
  | cons a t ih =>
    intro hall
    by_cases ha : p a
    · simp only [List.cons_append, List.takeWhile_cons, ha, if_true]
      rw [ih]
      intro hall2
      exact hall (fun x hx => by
        rcases List.mem_cons.mp hx with h | h
        · exact h ▸ ha
        · exact hall2 x h)
    · simp only [List.cons_append, List.takeWhile_cons]
      rw [if_neg (by simpa using ha), if_neg (by simpa using ha)]

/-- The quarter list left by the scan is the trailing run of INCREASE
periods (with the accumulated prefix only surviving an all-INCREASE
remainder). -/
theorem accum_fold_qs :
    ∀ (h : List HistEntry) (c m : Nat) (qs : List String),
      (h.foldl accumStep ⟨c, m, qs⟩).qs =
        if ∀ e ∈ h, isInc e = true then qs ++ h.map (fun e => e.period)
        else trailIncQuarters h := by
  intro h
  induction h with
  | nil => intro c m qs; simp
  | cons e t ih =>
    intro c m qs
    simp only [List.foldl_cons, accumStep]
    by_cases he : isInc e
    · rw [if_pos he, ih]
      by_cases ht : ∀ x ∈ t, isInc x = true
      · rw [if_pos ht, if_pos (by
          intro x hx
          rcases List.mem_cons.mp hx with h | h
          · exact h ▸ he
          · exact ht x h)]
        simp
      · rw [if_neg ht, if_neg (by
          intro hall
          exact ht (fun x hx => hall x (List.mem_cons_of_mem e hx)))]
        unfold trailIncQuarters
        rw [List.reverse_cons,
          takeWhile_append_of_not_all isInc t.reverse [e] (by
            intro hall
            exact ht (fun x hx => hall x (List.mem_reverse.mpr hx)))]
    · rw [if_neg he, ih]
      have hcons : ¬ ∀ x ∈ e :: t, isInc x = true := by
        intro hall
        exact he (hall e (List.mem_cons_self e t))
      by_cases ht : ∀ x ∈ t, isInc x = true
      · rw [if_pos ht, if_neg hcons]
        unfold trailIncQuarters
        rw [List.reverse_cons,
          takeWhile_append_of_all isInc t.reverse [e] (fun x hx =>
            ht x (List.mem_reverse.mp hx))]
        simp only [List.takeWhile_cons]
        rw [if_neg (by simpa using he)]
        simp
      · rw [if_neg ht, if_neg hcons]
        unfold trailIncQuarters
        rw [List.reverse_cons,
          takeWhile_append_of_not_all isInc t.reverse [e] (by
            intro hall
            exact ht (fun x hx => hall x (List.mem_reverse.mpr hx)))]

/-- The scan's quarter list always has the length of its open-run
counter. -/
theorem accum_fold_qs_len :
    ∀ (h : List HistEntry) (c m : Nat) (qs : List String), qs.length = c →
      (h.foldl accumStep ⟨c, m, qs⟩).qs.length =
        (h.foldl accumStep ⟨c, m, qs⟩).con := by
  intro h
  induction h with
  | nil => intro c m qs hq; simpa using hq
  | cons e t ih =>
    intro c m qs hq
    simp only [List.foldl_cons, accumStep]
    by_cases he : isInc e
    · rw [if_pos he]
      exact ih (c + 1) m (qs ++ [e.period]) (by simp [hq])
    · rw [if_neg he]
      exact ih 0 (max m c) [] rfl

/-- The quarter list left by the scan is exactly the trailing INCREASE
run. -/
theorem accumScan_qs (h : List HistEntry) :
    (accumScan h).qs = trailIncQuarters h := by
  unfold accumScan
  rw [accum_fold_qs]
  by_cases ht : ∀ e ∈ h, isInc e = true
  · rw [if_pos ht]
    unfold trailIncQuarters
    have := takeWhile_append_of_all isInc h.reverse []
      (fun x hx => ht x (List.mem_reverse.mp hx))
    rw [List.append_nil] at this
    rw [this]
    simp
  · rw [if_neg ht]

/-- The trailing run is never longer than `max_consecutive`. -/
theorem trailIncQuarters_length_le (h : List HistEntry) :
    (trailIncQuarters h).length ≤ maxIncRun h := by
  rw [← accumScan_qs, ← accumMax_eq]
  unfold accumMax accumScan
  rw [accum_fold_qs_len h 0 0 [] rfl]
  exact Nat.le_max_right _ _

/-- Full characterization of one accumulator probe: a signal is produced
iff the longest INCREASE run reaches 3, and then the signal is determined
— quarters being the trailing run, strength `strong` iff the run
reaches 4. -/
theorem accumSignalOf_eq_some (n : String) (h : List HistEntry) (s : Signal) :
    accumSignalOf n h = some s ↔
      (3 ≤ maxIncRun h ∧
        s = { signal_type := "consistent_accumulator"
              holdings := [n]
              quarters := trailIncQuarters h
              strength := if 4 ≤ maxIncRun h then "strong" else "moderate"
              details := [("consecutive_increases", DetailVal.int (maxIncRun h))] }) := by
  unfold accumSignalOf
  rw [accumMax_eq, accumScan_qs]
  by_cases h3 : 3 ≤ maxIncRun h
  · rw [if_pos h3]
    have hq : pySliceLast (maxIncRun h) (trailIncQuarters h) = trailIncQuarters h := by
      unfold pySliceLast
      rw [if_neg (by omega)]
      have hle := trailIncQuarters_length_le h
      have : (trailIncQuarters h).length - maxIncRun h = 0 := by omega
      rw [this, List.drop_zero]
    rw [hq]
    constructor
    · intro he
      rw [Option.some.injEq] at he
      exact ⟨h3, he.symm⟩
    · rintro ⟨_, rfl⟩
      rfl
  · rw [if_neg h3]
    constructor
    · intro he; cases he
    · rintro ⟨h3', _⟩; exact absurd h3' h3

/-- The stable strength sort neither adds nor removes signals. -/
theorem mem_sortSignalsByStrength (l : List Signal) (s : Signal) :
    s ∈ sortSignalsByStrength l ↔ s ∈ l := by
  unfold sortSignalsByStrength
  constructor
  · intro hmem
    rcases List.mem_append.mp hmem with h1 | h4
    · rcases List.mem_append.mp h1 with h2 | h3
      · rcases List.mem_append.mp h2 with ha | hb
        · exact List.mem_of_mem_filter ha
        · exact List.mem_of_mem_filter hb
      · exact List.mem_of_mem_filter h3
    · exact List.mem_of_mem_filter h4
  · intro h
    have h4 : strengthRank s = 0 ∨ strengthRank s = 1 ∨ strengthRank s = 2 ∨
        strengthRank s = 3 := by
      unfold strengthRank
      split_ifs <;> simp
    rcases h4 with h0 | h0 | h0 | h0
    · exact List.mem_append_left _ (List.mem_append_left _ (List.mem_append_left _
        (List.mem_filter.mpr ⟨h, by simp [h0]⟩)))
    · exact List.mem_append_left _ (List.mem_append_left _ (List.mem_append_right _
        (List.mem_filter.mpr ⟨h, by simp [h0]⟩)))
    · exact List.mem_append_left _ (List.mem_append_right _
        (List.mem_filter.mpr ⟨h, by simp [h0]⟩))
    · exact List.mem_append_right _ (List.mem_filter.mpr ⟨h, by simp [h0]⟩)

/-- Every signal produced by the build-then-trim scan carries its tag. -/
theorem bttScan_type (name : String) :
    ∀ (h : List HistEntry) (bq : List String) (inb : Bool) (s : Signal),
      bttScan name bq inb h = some s → s.signal_type = "build_then_trim" := by
  intro h
  induction h with
  | nil => intro bq inb s hs; cases hs
  | cons e t ih =>
    intro bq inb s hs
    simp only [bttScan] at hs
    split at hs
    · exact ih _ _ _ hs
    · split at hs
      · rw [Option.some.injEq] at hs
        subst hs
        rfl
      · exact ih _ _ _ hs

/-- Every signal of detector 2 carries the `build_then_trim` tag. -/
theorem bttSignals_type (diffs : List QuarterDiff) (s : Signal)
    (hs : s ∈ bttSignals diffs) : s.signal_type = "build_then_trim" := by
  unfold bttSignals at hs
  obtain ⟨ch, _, h⟩ := List.mem_filterMap.mp hs
  split at h
  · cases h
  · exact bttScan_type _ _ _ _ _ h

/-- Every signal of the probe scan carries the `one_quarter_probe` tag. -/
theorem probeSignalsFor_type (name : String) :
    ∀ (h : List HistEntry) (s : Signal),
      s ∈ probeSignalsFor name h → s.signal_type = "one_quarter_probe" := by
  intro h
  induction h with
  | nil => intro s hs; cases hs
  | cons e t ih =>
    intro s hs
    simp only [probeSignalsFor] at hs
    split at hs
    · split at hs
      · rcases List.mem_cons.mp hs with rfl | hmem
        · rfl
        · exact ih _ hmem
      · exact ih _ hs
    · exact ih _ hs

/-- Every signal of detector 3 carries the `one_quarter_probe` tag. -/
theorem probeSignals_type (diffs : List QuarterDiff) (s : Signal)
    (hs : s ∈ probeSignals diffs) : s.signal_type = "one_quarter_probe" := by
  unfold probeSignals at hs
  obtain ⟨ch, _, h⟩ := List.mem_flatMap.mp hs
  exact probeSignalsFor_type _ _ _ h

/-- Every signal of detector 4 carries the `concentration_shift` tag. -/
theorem concSignals_type (diffs : List QuarterDiff) (s : Signal)
    (hs : s ∈ concSignals diffs) : s.signal_type = "concentration_shift" := by
  unfold concSignals at hs
  repeat split at hs
  all_goals try cases hs
  all_goals
    first
      | rfl
      | exact absurd ‹List.Mem s []› (List.not_mem_nil s)

/-- Every signal of detector 5 carries the `theme_emergence` tag. -/
theorem themeSignals_type (diffs : List QuarterDiff) (s : Signal)
    (hs : s ∈ themeSignals diffs) : s.signal_type = "theme_emergence" := by
  unfold themeSignals at hs
  obtain ⟨d, _, hd⟩ := List.mem_flatMap.mp hs
  obtain ⟨cs, _, hcs⟩ := List.mem_filterMap.mp hd
  split at hcs
  · rw [Option.some.injEq] at hcs
    subst hcs
    rfl
  · cases hcs

/-- C1 amended: `detect_signals` emits a consistent-accumulator signal
exactly for the histories whose longest run of consecutive INCREASE
entries reaches 3; the signal's strength is `strong` iff the run reaches
4, and its quarter list is the trailing run of INCREASE periods of the
history (empty when the history does not end in an INCREASE) — which
equals the final `max_consecutive` quarters of the longest run precisely
when that run is the trailing one. -/
theorem accumulator_signal_iff (diffs : List QuarterDiff) (s : Signal) :
    (s ∈ detectSignals diffs ∧ s.signal_type = "consistent_accumulator") ↔
      ∃ ch ∈ buildHistory diffs, 3 ≤ maxIncRun ch.2 ∧
        s = { signal_type := "consistent_accumulator"
              holdings := [nameGet diffs ch.1]
              quarters := trailIncQuarters ch.2
              strength := if 4 ≤ maxIncRun ch.2 then "strong" else "moderate"
              details := [("consecutive_increases", DetailVal.int (maxIncRun ch.2))] } := by
  constructor
  · rintro ⟨hmem, htype⟩
    unfold detectSignals at hmem
    split at hmem
    · cases hmem
    · rw [mem_sortSignalsByStrength] at hmem
      rcases List.mem_append.mp hmem with hmem | hth
      rotate_left
      · have := themeSignals_type diffs s hth
        rw [this] at htype
        exact absurd htype (by decide)
      rcases List.mem_append.mp hmem with hmem | hco
      rotate_left
      · have := concSignals_type diffs s hco
        rw [this] at htype
        exact absurd htype (by decide)
      rcases List.mem_append.mp hmem with hmem | hpr
      rotate_left
      · have := probeSignals_type diffs s hpr
        rw [this] at htype
        exact absurd htype (by decide)
      rcases List.mem_append.mp hmem with hacc | hbt
      rotate_left
      · have := bttSignals_type diffs s hbt
        rw [this] at htype
        exact absurd htype (by decide)
      unfold accumSignals at hacc
      obtain ⟨ch, hch, hsig⟩ := List.mem_filterMap.mp hacc
      obtain ⟨h3, hform⟩ := (accumSignalOf_eq_some _ _ _).mp hsig
      exact ⟨ch, hch, h3, hform⟩
  · rintro ⟨ch, hch, h3, rfl⟩
    have hne : diffs.isEmpty = false := by
      cases diffs with
      | nil => simp [buildHistory, chronEntries, dictAppendAll] at hch
      | cons d ds => rfl
    constructor
    · unfold detectSignals
      rw [if_neg (by simp [hne])]
      rw [mem_sortSignalsByStrength]
      have hacc : _ ∈ accumSignals diffs :=
        List.mem_filterMap.mpr ⟨ch, hch, (accumSignalOf_eq_some _ _ _).mpr ⟨h3, rfl⟩⟩
      exact List.mem_append_left _ (List.mem_append_left _
        (List.mem_append_left _ (List.mem_append_left _ hacc)))
    · rfl

end ThirteenF
